import Mathlib

/-
Shallow embedding of the Peer Manager of kagome
(src/core/network/impl/peer_manager_impl.cpp, namespace kagome::network,
class PeerManagerImpl).

PeerIds, timepoints and block descriptors are modelled as natural numbers.
The three indices of the peer book are modelled as:
  active_peers_    : association list PeerId -> ActivePeerData
                     (std::unordered_map; keys unique by construction),
  connecting_peers_: list of PeerId with set discipline
                     (std::unordered_set; insertion only when absent),
  queue_to_connect_: list of PeerId (std::deque, FIFO),
  peers_in_queue_  : list of PeerId with set discipline (std::unordered_set).
Asynchronous collaborators (stream engine liveness, the clock, resolved
addresses, host connectedness, the bootstrap list) enter as explicit
arguments; calls out to collaborators (stream engine del, sync clients
remove, kademlia addPeer, dialing, stream opening) are recorded as a list
of Effect values.  Logging is dropped.
-/

namespace KagomeNetwork

abbrev PeerId := Nat
abbrev Timepoint := Nat
abbrev BlockInfo := Nat

/-- Status of a peer: best-block descriptor plus further protocol fields
(version, genesis, roles), opaque to the peer manager and collapsed into
one field here. -/
structure Status where
  best_block : BlockInfo
  rest : Nat
deriving DecidableEq, Repr

instance : Inhabited Status := ⟨⟨0, 0⟩⟩

/-- Value type of active_peers_: time of last activity and last status
(the C++ member is a plain, default-constructible Status field). -/
structure ActivePeerData where
  time : Timepoint
  status : Status
deriving DecidableEq, Repr

instance : Inhabited ActivePeerData := ⟨⟨0, default⟩⟩

/-- PeeringConfig from the application configuration. -/
structure PeeringConfig where
  targetPeerAmount : Nat
  softLimit : Nat
  hardLimit : Nat
  peerTtl : Nat
deriving DecidableEq, Repr

/-- libp2p Host connectedness values. -/
inductive Connectedness
  | NOT_CONNECTED
  | CONNECTED
  | CAN_CONNECT
  | CAN_NOT_CONNECT
deriving DecidableEq, Repr

/-- Calls the peer manager makes into its collaborators. -/
inductive Effect
  | streamDel (p : PeerId)
  | syncClientsRemove (p : PeerId)
  | dialAttempt (p : PeerId)
  | streamOpenRequest (p : PeerId)
  | kademliaAddPeer (p : PeerId) (permanent : Bool)
deriving DecidableEq, Repr

/-- The mutable indices of PeerManagerImpl. -/
structure PeerManagerState where
  active_peers : List (PeerId × ActivePeerData)
  connecting_peers : List PeerId
  queue_to_connect : List PeerId
  peers_in_queue : List PeerId
deriving DecidableEq, Repr

/-- unordered_set emplace: insert only when absent. -/
def setInsert (x : PeerId) (l : List PeerId) : List PeerId :=
  if x ∈ l then l else x :: l

/-- unordered_set erase. -/
def setErase (x : PeerId) (l : List PeerId) : List PeerId :=
  l.filter (fun y => y ≠ x)

/-- unordered_map erase by key. -/
def eraseKey (l : List (PeerId × ActivePeerData)) (k : PeerId) :
    List (PeerId × ActivePeerData) :=
  l.filter (fun e => e.1 ≠ k)

/-- unordered_map emplace: insert only when the key is absent. -/
def emplaceActive (l : List (PeerId × ActivePeerData)) (k : PeerId)
    (v : ActivePeerData) : List (PeerId × ActivePeerData) :=
  if (l.lookup k).isSome then l else (k, v) :: l

/-- In-place mutation of the entry of key k (keys are unique, so at most
one entry is rewritten). -/
def updateActive (l : List (PeerId × ActivePeerData)) (k : PeerId)
    (f : ActivePeerData → ActivePeerData) : List (PeerId × ActivePeerData) :=
  l.map (fun e => if e.1 = k then (e.1, f e.2) else e)

/-- std::min_element over active_peers_ comparing ActivePeerData.time:
first element attaining the minimum. -/
def minByTime : List (PeerId × ActivePeerData) → Option (PeerId × ActivePeerData)
  | [] => none
  | x :: xs =>
    match minByTime xs with
    | none => some x
    | some m => if m.2.time < x.2.time then some m else some x

/-- PeerManagerImpl::prepare: fail iff not dev mode and no bootstrap nodes. -/
def prepare (isRunInDevMode : Bool) (bootstrap_nodes : List PeerId) : Bool :=
  if !isRunInDevMode && bootstrap_nodes.isEmpty then false else true

/-- Return value of PeerManagerImpl::start: the passive-mode branch and
the normal branch both return true. -/
def startReturn (isRunInDevMode : Bool) (bootstrap_nodes : List PeerId) : Bool :=
  if isRunInDevMode && bootstrap_nodes.isEmpty then true else true

/-- PeerManagerImpl::disconnectFromPeer: erase from active_peers_ and tell
the stream engine when the peer was active; in every case ask the sync
clients set to remove the peer. -/
def disconnectFromPeer (p : PeerId) (s : PeerManagerState) :
    PeerManagerState × List Effect :=
  if (s.active_peers.lookup p).isSome then
    ({ s with active_peers := eraseKey s.active_peers p },
      [Effect.streamDel p, Effect.syncClientsRemove p])
  else
    (s, [Effect.syncClientsRemove p])

/-- State part of disconnectFromPeer (used inside align). -/
def disconnectState (p : PeerId) (s : PeerManagerState) : PeerManagerState :=
  (disconnectFromPeer p s).1

/-- PeerManagerImpl::keepAlive: refresh the activity time of an active peer. -/
def keepAlive (p : PeerId) (now : Timepoint) (s : PeerManagerState) :
    PeerManagerState :=
  if (s.active_peers.lookup p).isSome then
    let touched := updateActive s.active_peers p (fun d => { d with time := now })
    { s with active_peers := touched }
  else s

/-- PeerManagerImpl::updatePeerStatus(peer_id, status): overwrite time and
status when active; otherwise erase the peer from connecting_peers_ and
from the queue (when queued) and emplace it as an active peer. -/
def updatePeerStatus (p : PeerId) (st : Status) (now : Timepoint)
    (s : PeerManagerState) : PeerManagerState :=
  if (s.active_peers.lookup p).isSome then
    let overwritten := updateActive s.active_peers p (fun _ => { time := now, status := st })
    { s with active_peers := overwritten }
  else
    if p ∈ s.peers_in_queue then
      { s with
        connecting_peers := setErase p s.connecting_peers,
        queue_to_connect := s.queue_to_connect.erase p,
        peers_in_queue := setErase p s.peers_in_queue,
        active_peers := emplaceActive s.active_peers p
          { time := now, status := st } }
    else
      { s with
        connecting_peers := setErase p s.connecting_peers,
        active_peers := emplaceActive s.active_peers p
          { time := now, status := st } }

/-- PeerManagerImpl::updatePeerStatus(peer_id, best_block): only touches an
already active peer. -/
def updatePeerStatusBest (p : PeerId) (bb : BlockInfo) (now : Timepoint)
    (s : PeerManagerState) : PeerManagerState :=
  if (s.active_peers.lookup p).isSome then
    let bumped := updateActive s.active_peers p
      (fun d => { time := now, status := { d.status with best_block := bb } })
    { s with active_peers := bumped }
  else s

/-- PeerManagerImpl::getPeerStatus. -/
def getPeerStatus (p : PeerId) (s : PeerManagerState) : Option Status :=
  (s.active_peers.lookup p).map (fun d => d.status)

/-- PeerManagerImpl::processDiscoveredPeer: skip self, skip active peers,
skip peers already queued; otherwise append to the queue and to its
mirror set.  The connecting set is not consulted. -/
def processDiscoveredPeer (own p : PeerId) (s : PeerManagerState) :
    PeerManagerState :=
  if own = p then s
  else if (s.active_peers.lookup p).isSome then s
  else if p ∈ s.peers_in_queue then s
  else
    { s with
      peers_in_queue := p :: s.peers_in_queue,
      queue_to_connect := s.queue_to_connect ++ [p] }

/-- PeerManagerImpl::connectToPeer(peer_id), synchronous part: abandon on
an empty resolved address list, abandon on CAN_NOT_CONNECT, otherwise
issue the dial; no peer book state is touched here. -/
def connectToPeer (p : PeerId) (addresses : List Nat) (conn : Connectedness)
    (s : PeerManagerState) : PeerManagerState × Option Effect :=
  if addresses.isEmpty then (s, none)
  else if conn = Connectedness.CAN_NOT_CONNECT then (s, none)
  else (s, some (Effect.dialAttempt p))

/-- PeerManagerImpl::processFullyConnectedPeer, synchronous part: skip
self; abandon when the address repository has no record; at or above the
hard limit only erase the peer from connecting_peers_; otherwise request a
block-announce stream unless one is already alive.  Every non-abandoning
path ends by announcing the peer to kademlia (non-permanent). -/
def processFullyConnectedPeer (own p : PeerId)
    (addressesRes : Option (List Nat)) (hardLimit : Nat)
    (isAlive : PeerId → Bool) (s : PeerManagerState) :
    PeerManagerState × List Effect :=
  if own = p then (s, [])
  else
    match addressesRes with
    | none => (s, [])
    | some _ =>
      if hardLimit ≤ s.active_peers.length then
        ({ s with connecting_peers := setErase p s.connecting_peers },
          [Effect.kademliaAddPeer p false])
      else if isAlive p then (s, [Effect.kademliaAddPeer p false])
      else (s, [Effect.streamOpenRequest p, Effect.kademliaAddPeer p false])

/-- Continuation of newOutgoingStream on the block-announce protocol:
always erase the peer from connecting_peers_; on failure disconnect the
peer entirely; on success emplace it as active (time = now, status
default-constructed) and, only when that emplace actually inserted,
remove the peer from the queue and its mirror set. -/
def newOutgoingStreamCallback (p : PeerId) (success : Bool) (now : Timepoint)
    (s : PeerManagerState) : PeerManagerState × List Effect :=
  let s1 := { s with connecting_peers := setErase p s.connecting_peers }
  if success then
    if (s1.active_peers.lookup p).isSome then (s1, [])
    else
      let s2 := { s1 with
        active_peers := (p, { time := now, status := default }) :: s1.active_peers }
      if p ∈ s2.peers_in_queue then
        ({ s2 with
            queue_to_connect := s2.queue_to_connect.erase p,
            peers_in_queue := setErase p s2.peers_in_queue }, [])
      else (s2, [])
  else
    disconnectFromPeer p s1

/-- Continuation of host connect: erase the peer from connecting_peers_;
when the connection carries a remote peer id equal to the expected one,
run processFullyConnectedPeer immediately. -/
def hostConnectCallback (own p : PeerId) (connectRes : Option (Option PeerId))
    (addressesRes : Option (List Nat)) (hardLimit : Nat)
    (isAlive : PeerId → Bool) (s : PeerManagerState) :
    PeerManagerState × List Effect :=
  let s1 := { s with connecting_peers := setErase p s.connecting_peers }
  match connectRes with
  | none => (s1, [])
  | some none => (s1, [])
  | some (some rid) =>
    if rid = p then
      processFullyConnectedPeer own p addressesRes hardLimit isAlive s1
    else (s1, [])

/-- First phase of align: drop every active peer whose block-announce
stream is no longer alive (disconnectFromPeer on each dead peer). -/
def alignSweep (isAlive : PeerId → Bool) (s : PeerManagerState) :
    PeerManagerState :=
  { s with active_peers := s.active_peers.filter (fun e => isAlive e.1) }

/-- Second phase of align: above the soft limit find the oldest active
peer; disconnect it when the hard limit is exceeded, or when it has been
silent longer than peer_ttl. -/
def alignEvict (cfg : PeeringConfig) (now : Timepoint) (s : PeerManagerState) :
    PeerManagerState :=
  if cfg.softLimit < s.active_peers.length then
    match minByTime s.active_peers with
    | some oldest =>
      if cfg.hardLimit < s.active_peers.length then
        disconnectState oldest.1 s
      else if oldest.2.time + cfg.peerTtl < now then
        disconnectState oldest.1 s
      else s
    | none => s
  else s

/-- Third phase of align: below the target count, move the queue head into
connecting_peers_ and dial it; with an empty queue and nothing connecting,
fall back to dialing the bootstrap nodes (self excluded). -/
def alignFill (cfg : PeeringConfig) (bootstrap : List PeerId) (own : PeerId)
    (s : PeerManagerState) : PeerManagerState :=
  if s.active_peers.length < cfg.targetPeerAmount then
    match s.queue_to_connect with
    | p :: rest =>
      { s with
        peers_in_queue := setErase p s.peers_in_queue,
        queue_to_connect := rest,
        connecting_peers := setInsert p s.connecting_peers }
    | [] =>
      if s.connecting_peers.isEmpty then
        let seeded := (bootstrap.filter (fun b => own ≠ b)).foldl
          (fun c b => setInsert b c) s.connecting_peers
        { s with connecting_peers := seeded }
      else s
  else s

/-- PeerManagerImpl::align, one pass: liveness sweep, then soft/hard-limit
eviction, then refill from the queue or the bootstrap list. -/
def align (cfg : PeeringConfig) (isAlive : PeerId → Bool) (now : Timepoint)
    (bootstrap : List PeerId) (own : PeerId) (s : PeerManagerState) :
    PeerManagerState :=
  alignFill cfg bootstrap own (alignEvict cfg now (alignSweep isAlive s))

/-- The queue mirror invariant: both containers are duplicate-free and
hold the same ids. -/
def queueMirror (s : PeerManagerState) : Prop :=
  s.queue_to_connect.Nodup ∧ s.peers_in_queue.Nodup ∧
    s.queue_to_connect.toFinset = s.peers_in_queue.toFinset

instance (s : PeerManagerState) : Decidable (queueMirror s) := by
  unfold queueMirror; infer_instance

/-- Disjointness of the active map and the queue mirror set. -/
def activeQueueDisjoint (s : PeerManagerState) : Prop :=
  ∀ p ∈ s.peers_in_queue, (s.active_peers.lookup p).isNone

instance (s : PeerManagerState) : Decidable (activeQueueDisjoint s) := by
  unfold activeQueueDisjoint; infer_instance

/-- Peer book with all four indices empty. -/
def emptyState : PeerManagerState :=
  { active_peers := [], connecting_peers := [], queue_to_connect := [],
    peers_in_queue := [] }

/-- Peer book with peer 1 active, peer 4 connecting and peer 6 queued. -/
def stateA : PeerManagerState :=
  { active_peers := [(1, { time := 3, status := { best_block := 2, rest := 0 } })],
    connecting_peers := [4], queue_to_connect := [6], peers_in_queue := [6] }

/-- Peer book with peers 1 and 2 active (both last seen at time 0). -/
def stateTwoActive : PeerManagerState :=
  { active_peers := [(1, { time := 0, status := default }),
                     (2, { time := 0, status := default })],
    connecting_peers := [], queue_to_connect := [], peers_in_queue := [] }

/-- Peer book with only peer 5 active, last seen at time 0. -/
def stateActive5 : PeerManagerState :=
  { active_peers := [(5, { time := 0, status := default })],
    connecting_peers := [], queue_to_connect := [], peers_in_queue := [] }

/-- Peering configuration with every limit zero. -/
def cfgZero : PeeringConfig :=
  { targetPeerAmount := 0, softLimit := 0, hardLimit := 0, peerTtl := 10 }

section Lemmas

theorem mem_setErase {a b : PeerId} {l : List PeerId} :
    a ∈ setErase b l ↔ a ∈ l ∧ a ≠ b := by
  simp [setErase]

theorem not_mem_setErase_self {p : PeerId} {l : List PeerId} :
    p ∉ setErase p l := by
  simp [mem_setErase]

theorem nodup_setErase {b : PeerId} {l : List PeerId} (h : l.Nodup) :
    (setErase b l).Nodup :=
  h.filter _

theorem lookup_isSome_of_mem {l : List (PeerId × ActivePeerData)}
    {k : PeerId} {d : ActivePeerData} :
    (k, d) ∈ l → (l.lookup k).isSome := by
  induction l with
  | nil => intro h; cases h
  | cons e t ih =>
    intro h
    obtain ⟨a, b⟩ := e
    rcases List.mem_cons.mp h with h | h
    · obtain ⟨h1, h2⟩ := Prod.mk.injEq .. ▸ h
      simp [List.lookup_cons, h1]
    · by_cases he : k = a
      · simp [List.lookup_cons, he]
      · simpa [List.lookup_cons, beq_false_of_ne he] using ih h

theorem lookup_filter_eq_none {l : List (PeerId × ActivePeerData)}
    {k : PeerId} (f : PeerId × ActivePeerData → Bool) :
    l.lookup k = none → (l.filter f).lookup k = none := by
  induction l with
  | nil => simp
  | cons e t ih =>
    intro h
    obtain ⟨a, b⟩ := e
    by_cases he : k = a
    · simp [List.lookup_cons, he] at h
    · simp only [List.lookup_cons, beq_false_of_ne he] at h
      by_cases hf : f (a, b)
      · simp [List.filter_cons, hf, List.lookup_cons, beq_false_of_ne he, ih h]
      · simp [List.filter_cons, hf, ih h]

theorem length_filter_lt_of_mem {l : List (PeerId × ActivePeerData)}
    {e : PeerId × ActivePeerData} (f : PeerId × ActivePeerData → Bool)
    (hf : f e = false) : e ∈ l → (l.filter f).length < l.length := by
  induction l with
  | nil => intro hmem; cases hmem
  | cons a t ih =>
    intro hmem
    rcases List.mem_cons.mp hmem with h | h
    · subst h
      simp only [List.filter_cons, hf, List.length_cons]
      exact Nat.lt_succ_of_le (List.length_filter_le _ _)
    · by_cases ha : f a
      · simpa [List.filter_cons, ha, Nat.succ_lt_succ_iff] using ih h
      · simp only [List.filter_cons, ha, List.length_cons]
        exact Nat.lt_succ_of_lt (ih h)

theorem minByTime_mem {l : List (PeerId × ActivePeerData)}
    {m : PeerId × ActivePeerData} : minByTime l = some m → m ∈ l := by
  induction l with
  | nil => intro h; cases h
  | cons x xs ih =>
    intro h
    cases hxs : minByTime xs with
    | none =>
      simp only [minByTime, hxs] at h
      have : x = m := by simpa using h
      simp [this]
    | some m0 =>
      simp only [minByTime, hxs] at h
      by_cases hlt : m0.2.time < x.2.time
      · rw [if_pos hlt] at h
        have : m0 = m := by simpa using h
        exact List.mem_cons_of_mem _ (ih (this ▸ hxs))
      · rw [if_neg hlt] at h
        have : x = m := by simpa using h
        simp [this]

theorem minByTime_eq_none {l : List (PeerId × ActivePeerData)} :
    minByTime l = none ↔ l = [] := by
  cases l with
  | nil => simp [minByTime]
  | cons x xs =>
    simp only [minByTime]
    cases minByTime xs with
    | none => simp
    | some m => by_cases h : m.2.time < x.2.time <;> simp [h]

theorem updateActive_cons_self {a : PeerId} {b : ActivePeerData}
    {t : List (PeerId × ActivePeerData)} (f : ActivePeerData → ActivePeerData) :
    updateActive ((a, b) :: t) a f = (a, f b) :: updateActive t a f := by
  simp [updateActive]

theorem updateActive_cons_ne {a k : PeerId} {b : ActivePeerData}
    {t : List (PeerId × ActivePeerData)} (f : ActivePeerData → ActivePeerData)
    (h : a ≠ k) :
    updateActive ((a, b) :: t) k f = (a, b) :: updateActive t k f := by
  simp [updateActive, h]

theorem lookup_updateActive_self {l : List (PeerId × ActivePeerData)}
    {k : PeerId} (f : ActivePeerData → ActivePeerData) :
    (updateActive l k f).lookup k = (l.lookup k).map f := by
  induction l with
  | nil => simp [updateActive]
  | cons e t ih =>
    obtain ⟨a, b⟩ := e
    by_cases he : a = k
    · subst he
      rw [updateActive_cons_self f]
      simp [List.lookup_cons]
    · rw [updateActive_cons_ne f he]
      simp only [List.lookup_cons, beq_false_of_ne (Ne.symm he)]
      exact ih

theorem lookup_updateActive_ne {l : List (PeerId × ActivePeerData)}
    {k q : PeerId} (f : ActivePeerData → ActivePeerData) (h : q ≠ k) :
    (updateActive l k f).lookup q = l.lookup q := by
  induction l with
  | nil => simp [updateActive]
  | cons e t ih =>
    obtain ⟨a, b⟩ := e
    by_cases he : a = k
    · subst he
      rw [updateActive_cons_self f]
      simp only [List.lookup_cons, beq_false_of_ne h]
      exact ih
    · rw [updateActive_cons_ne f he]
      by_cases hqa : q = a
      · simp [List.lookup_cons, hqa]
      · simp only [List.lookup_cons, beq_false_of_ne hqa]
        exact ih

theorem lookup_updateActive_isNone {l : List (PeerId × ActivePeerData)}
    {k q : PeerId} (f : ActivePeerData → ActivePeerData) :
    ((updateActive l k f).lookup q).isNone = (l.lookup q).isNone := by
  by_cases h : q = k
  · subst h; rw [lookup_updateActive_self]; cases l.lookup q <;> rfl
  · rw [lookup_updateActive_ne f h]

theorem queueMirror_length {s : PeerManagerState} (h : queueMirror s) :
    s.queue_to_connect.length = s.peers_in_queue.length := by
  obtain ⟨h1, h2, h3⟩ := h
  calc s.queue_to_connect.length = s.queue_to_connect.toFinset.card :=
        (List.toFinset_card_of_nodup h1).symm
    _ = s.peers_in_queue.toFinset.card := by rw [h3]
    _ = s.peers_in_queue.length := List.toFinset_card_of_nodup h2

theorem alignFill_active (cfg : PeeringConfig) (bootstrap : List PeerId)
    (own : PeerId) (s : PeerManagerState) :
    (alignFill cfg bootstrap own s).active_peers = s.active_peers := by
  unfold alignFill
  split
  · split
    · rfl
    · split <;> rfl
  · rfl

theorem disconnectState_length_le (p : PeerId) (s : PeerManagerState) :
    (disconnectState p s).active_peers.length ≤ s.active_peers.length := by
  unfold disconnectState disconnectFromPeer
  split
  · exact List.length_filter_le _ _
  · exact Nat.le_refl _

theorem disconnectState_length_lt (p : PeerId) (s : PeerManagerState)
    (h : (s.active_peers.lookup p).isSome) :
    (disconnectState p s).active_peers.length < s.active_peers.length := by
  unfold disconnectState disconnectFromPeer
  rw [if_pos h]
  obtain ⟨pe, hpe, hk⟩ := List.lookup_isSome_iff.mp h
  have heq : p = pe.1 := by simpa using hk
  subst heq
  show (eraseKey s.active_peers pe.1).length < s.active_peers.length
  unfold eraseKey
  refine length_filter_lt_of_mem _ ?_ hpe
  simp

theorem alignEvict_length_le (cfg : PeeringConfig) (now : Timepoint)
    (s : PeerManagerState) (hsh : cfg.softLimit ≤ cfg.hardLimit)
    (hn : s.active_peers.length ≤ cfg.hardLimit + 1) :
    (alignEvict cfg now s).active_peers.length ≤ cfg.hardLimit := by
  unfold alignEvict
  split
  · split
    · rename_i hsoft oldest hmin
      have hmem : (oldest.1, oldest.2) ∈ s.active_peers := by
        simpa using minByTime_mem hmin
      have hsome := lookup_isSome_of_mem hmem
      split
      · have := disconnectState_length_lt oldest.1 s hsome
        omega
      · split
        · have := disconnectState_length_le oldest.1 s
          omega
        · omega
    · rename_i hsoft hmin
      have : s.active_peers = [] := minByTime_eq_none.mp hmin
      simp [this]
  · rename_i hsoft
    omega

theorem toFinset_mem_iff {l1 l2 : List PeerId}
    (h : l1.toFinset = l2.toFinset) (a : PeerId) : a ∈ l1 ↔ a ∈ l2 := by
  rw [← List.mem_toFinset, h, List.mem_toFinset]

theorem mirror_erase_pair {queue piq : List PeerId} (p : PeerId)
    (h1 : queue.Nodup) (h2 : piq.Nodup) (h3 : queue.toFinset = piq.toFinset) :
    (queue.erase p).Nodup ∧ (setErase p piq).Nodup ∧
      (queue.erase p).toFinset = (setErase p piq).toFinset := by
  refine ⟨h1.erase p, nodup_setErase h2, ?_⟩
  ext a
  simp only [List.mem_toFinset, h1.mem_erase_iff, mem_setErase]
  rw [toFinset_mem_iff h3 a]
  constructor
  · rintro ⟨hne, hq⟩
    exact ⟨hq, hne⟩
  · rintro ⟨hq, hne⟩
    exact ⟨hne, hq⟩

theorem mirror_append_pair {queue piq : List PeerId} (p : PeerId)
    (h1 : queue.Nodup) (h2 : piq.Nodup) (h3 : queue.toFinset = piq.toFinset)
    (hp : p ∉ piq) :
    (queue ++ [p]).Nodup ∧ (p :: piq).Nodup ∧
      (queue ++ [p]).toFinset = (p :: piq).toFinset := by
  have hpq : p ∉ queue := fun hc => hp ((toFinset_mem_iff h3 p).mp hc)
  refine ⟨?_, List.nodup_cons.mpr ⟨hp, h2⟩, ?_⟩
  · rw [List.nodup_append]
    refine ⟨h1, List.nodup_singleton p, ?_⟩
    intro a ha hb
    have : a = p := by simpa using hb
    exact hpq (this ▸ ha)
  · ext a
    simp only [List.toFinset_append, List.toFinset_cons, Finset.mem_union,
      Finset.mem_insert, List.mem_toFinset]
    rw [toFinset_mem_iff h3 a]
    constructor
    · rintro (hq | hq)
      · exact Or.inr hq
      · exact Or.inl (by simpa using hq)
    · rintro (hq | hq)
      · exact Or.inr (by simp [hq])
      · exact Or.inl hq

theorem queueMirror_of_eq {s t : PeerManagerState}
    (hq : t.queue_to_connect = s.queue_to_connect)
    (hp : t.peers_in_queue = s.peers_in_queue)
    (h : queueMirror s) : queueMirror t := by
  obtain ⟨h1, h2, h3⟩ := h
  exact ⟨hq ▸ h1, hp ▸ h2, by rw [hq, hp]; exact h3⟩

theorem mirror_disconnect (p : PeerId) {s : PeerManagerState}
    (h : queueMirror s) : queueMirror (disconnectFromPeer p s).1 := by
  unfold disconnectFromPeer
  split
  · exact h
  · exact h

theorem mirror_processDiscoveredPeer (own p : PeerId) {s : PeerManagerState}
    (h : queueMirror s) : queueMirror (processDiscoveredPeer own p s) := by
  obtain ⟨h1, h2, h3⟩ := h
  unfold processDiscoveredPeer
  split
  · exact ⟨h1, h2, h3⟩
  · split
    · exact ⟨h1, h2, h3⟩
    · split
      · exact ⟨h1, h2, h3⟩
      · rename_i hq
        exact mirror_append_pair p h1 h2 h3 hq

theorem mirror_alignFill (cfg : PeeringConfig) (bootstrap : List PeerId)
    (own : PeerId) {s : PeerManagerState} (h : queueMirror s) :
    queueMirror (alignFill cfg bootstrap own s) := by
  obtain ⟨h1, h2, h3⟩ := h
  unfold alignFill
  split
  · split
    · rename_i p rest hcons
      rw [hcons] at h1 h3
      have hrest : rest = (p :: rest).erase p := (List.erase_cons_head p rest).symm
      obtain ⟨n1, n2, n3⟩ := mirror_erase_pair p h1 h2 h3
      rw [← hrest] at n1 n3
      exact ⟨n1, n2, n3⟩
    · split
      · exact ⟨h1, h2, h3⟩
      · exact ⟨h1, h2, h3⟩
  · exact ⟨h1, h2, h3⟩

theorem mirror_align (cfg : PeeringConfig) (isAlive : PeerId → Bool)
    (now : Timepoint) (bootstrap : List PeerId) (own : PeerId)
    {s : PeerManagerState} (h : queueMirror s) :
    queueMirror (align cfg isAlive now bootstrap own s) := by
  unfold align
  refine mirror_alignFill cfg bootstrap own ?_
  have hsweep : queueMirror (alignSweep isAlive s) := h
  unfold alignEvict
  split
  · split
    · split
      · exact mirror_disconnect _ hsweep
      · split
        · exact mirror_disconnect _ hsweep
        · exact hsweep
    · exact hsweep
  · exact hsweep

theorem mirror_updatePeerStatus (p : PeerId) (st : Status) (now : Timepoint)
    {s : PeerManagerState} (h : queueMirror s) :
    queueMirror (updatePeerStatus p st now s) := by
  obtain ⟨h1, h2, h3⟩ := h
  unfold updatePeerStatus
  split
  · exact ⟨h1, h2, h3⟩
  · split
    · exact mirror_erase_pair p h1 h2 h3
    · exact ⟨h1, h2, h3⟩

theorem mirror_updatePeerStatusBest (p : PeerId) (bb : BlockInfo)
    (now : Timepoint) {s : PeerManagerState} (h : queueMirror s) :
    queueMirror (updatePeerStatusBest p bb now s) := by
  unfold updatePeerStatusBest
  split
  · exact h
  · exact h

theorem mirror_keepAlive (p : PeerId) (now : Timepoint)
    {s : PeerManagerState} (h : queueMirror s) :
    queueMirror (keepAlive p now s) := by
  unfold keepAlive
  split
  · exact h
  · exact h

theorem mirror_connectToPeer (p : PeerId) (addrs : List Nat)
    (conn : Connectedness) {s : PeerManagerState} (h : queueMirror s) :
    queueMirror (connectToPeer p addrs conn s).1 := by
  unfold connectToPeer
  split
  · exact h
  · split
    · exact h
    · exact h

theorem mirror_processFullyConnectedPeer (own p : PeerId)
    (a : Option (List Nat)) (hard : Nat) (isAlive : PeerId → Bool)
    {s : PeerManagerState} (h : queueMirror s) :
    queueMirror (processFullyConnectedPeer own p a hard isAlive s).1 := by
  unfold processFullyConnectedPeer
  split
  · exact h
  · split
    · exact h
    · split
      · exact h
      · split
        · exact h
        · exact h

theorem mirror_newOutgoingStreamCallback (p : PeerId) (success : Bool)
    (now : Timepoint) {s : PeerManagerState} (h : queueMirror s) :
    queueMirror (newOutgoingStreamCallback p success now s).1 := by
  obtain ⟨h1, h2, h3⟩ := h
  unfold newOutgoingStreamCallback
  dsimp only
  split
  · split
    · exact ⟨h1, h2, h3⟩
    · split
      · exact mirror_erase_pair p h1 h2 h3
      · exact ⟨h1, h2, h3⟩
  · exact mirror_disconnect p ⟨h1, h2, h3⟩

theorem mirror_hostConnectCallback (own p : PeerId)
    (cres : Option (Option PeerId)) (a : Option (List Nat)) (hard : Nat)
    (isAlive : PeerId → Bool) {s : PeerManagerState} (h : queueMirror s) :
    queueMirror (hostConnectCallback own p cres a hard isAlive s).1 := by
  unfold hostConnectCallback
  dsimp only
  split
  · exact h
  · exact h
  · split
    · exact mirror_processFullyConnectedPeer own p a hard isAlive h
    · exact h

theorem disj_filter_active (f : PeerId × ActivePeerData → Bool)
    {s : PeerManagerState} (h : activeQueueDisjoint s) :
    activeQueueDisjoint { s with active_peers := s.active_peers.filter f } := by
  intro q hq
  have hn := h q hq
  rw [Option.isNone_iff_eq_none] at hn ⊢
  exact lookup_filter_eq_none f hn

theorem disj_updateActive (k : PeerId) (f : ActivePeerData → ActivePeerData)
    {s : PeerManagerState} (h : activeQueueDisjoint s) :
    activeQueueDisjoint { s with active_peers := updateActive s.active_peers k f } := by
  intro q hq
  rw [show ({ s with active_peers := updateActive s.active_peers k f } :
      PeerManagerState).active_peers = updateActive s.active_peers k f from rfl]
  rw [lookup_updateActive_isNone]
  exact h q hq

theorem disj_disconnect (p : PeerId) {s : PeerManagerState}
    (h : activeQueueDisjoint s) : activeQueueDisjoint (disconnectFromPeer p s).1 := by
  unfold disconnectFromPeer
  split
  · exact disj_filter_active _ h
  · exact h

theorem disj_disconnectState (p : PeerId) {s : PeerManagerState}
    (h : activeQueueDisjoint s) : activeQueueDisjoint (disconnectState p s) := by
  unfold disconnectState
  exact disj_disconnect p h

theorem disj_processDiscoveredPeer (own p : PeerId) {s : PeerManagerState}
    (h : activeQueueDisjoint s) :
    activeQueueDisjoint (processDiscoveredPeer own p s) := by
  unfold processDiscoveredPeer
  split
  · exact h
  · split
    · exact h
    · split
      · exact h
      · rename_i hact hq
        intro q hqm
        rcases List.mem_cons.mp hqm with hqp | hmem
        · subst hqp
          exact Option.isNone_iff_eq_none.mpr (Option.not_isSome_iff_eq_none.mp hact)
        · exact h q hmem

theorem disj_alignFill (cfg : PeeringConfig) (bootstrap : List PeerId)
    (own : PeerId) {s : PeerManagerState} (h : activeQueueDisjoint s) :
    activeQueueDisjoint (alignFill cfg bootstrap own s) := by
  unfold alignFill
  split
  · split
    · intro q hq
      exact h q (mem_setErase.mp hq).1
    · split
      · exact h
      · exact h
  · exact h

theorem disj_alignEvict (cfg : PeeringConfig) (now : Timepoint)
    {s : PeerManagerState} (h : activeQueueDisjoint s) :
    activeQueueDisjoint (alignEvict cfg now s) := by
  unfold alignEvict
  split
  · split
    · split
      · exact disj_disconnectState _ h
      · split
        · exact disj_disconnectState _ h
        · exact h
    · exact h
  · exact h

theorem disj_align (cfg : PeeringConfig) (isAlive : PeerId → Bool)
    (now : Timepoint) (bootstrap : List PeerId) (own : PeerId)
    {s : PeerManagerState} (h : activeQueueDisjoint s) :
    activeQueueDisjoint (align cfg isAlive now bootstrap own s) := by
  unfold align
  exact disj_alignFill cfg bootstrap own
    (disj_alignEvict cfg now (disj_filter_active _ h))

theorem disj_updatePeerStatus (p : PeerId) (st : Status) (now : Timepoint)
    {s : PeerManagerState} (h : activeQueueDisjoint s) :
    activeQueueDisjoint (updatePeerStatus p st now s) := by
  unfold updatePeerStatus
  split
  · exact disj_updateActive _ _ h
  · rename_i hact
    split
    · intro q hqm
      obtain ⟨hmem, hne⟩ := mem_setErase.mp hqm
      show ((emplaceActive s.active_peers p
        { time := now, status := st }).lookup q).isNone
      simp only [emplaceActive, if_neg hact, List.lookup_cons, beq_false_of_ne hne]
      exact h q hmem
    · rename_i hq
      intro q hqm
      have hne : q ≠ p := fun e => hq (e ▸ hqm)
      show ((emplaceActive s.active_peers p
        { time := now, status := st }).lookup q).isNone
      simp only [emplaceActive, if_neg hact, List.lookup_cons, beq_false_of_ne hne]
      exact h q hqm

theorem disj_updatePeerStatusBest (p : PeerId) (bb : BlockInfo)
    (now : Timepoint) {s : PeerManagerState} (h : activeQueueDisjoint s) :
    activeQueueDisjoint (updatePeerStatusBest p bb now s) := by
  unfold updatePeerStatusBest
  split
  · exact disj_updateActive _ _ h
  · exact h

theorem disj_keepAlive (p : PeerId) (now : Timepoint) {s : PeerManagerState}
    (h : activeQueueDisjoint s) : activeQueueDisjoint (keepAlive p now s) := by
  unfold keepAlive
  split
  · exact disj_updateActive _ _ h
  · exact h

theorem disj_connectToPeer (p : PeerId) (addrs : List Nat)
    (conn : Connectedness) {s : PeerManagerState} (h : activeQueueDisjoint s) :
    activeQueueDisjoint (connectToPeer p addrs conn s).1 := by
  unfold connectToPeer
  split
  · exact h
  · split
    · exact h
    · exact h

theorem disj_processFullyConnectedPeer (own p : PeerId)
    (a : Option (List Nat)) (hard : Nat) (isAlive : PeerId → Bool)
    {s : PeerManagerState} (h : activeQueueDisjoint s) :
    activeQueueDisjoint (processFullyConnectedPeer own p a hard isAlive s).1 := by
  unfold processFullyConnectedPeer
  split
  · exact h
  · split
    · exact h
    · split
      · exact h
      · split
        · exact h
        · exact h

theorem disj_newOutgoingStreamCallback (p : PeerId) (success : Bool)
    (now : Timepoint) {s : PeerManagerState} (h : activeQueueDisjoint s) :
    activeQueueDisjoint (newOutgoingStreamCallback p success now s).1 := by
  unfold newOutgoingStreamCallback
  dsimp only
  split
  · split
    · exact h
    · rename_i hact
      split
      · intro q hqm
        obtain ⟨hmem, hne⟩ := mem_setErase.mp hqm
        show (List.lookup q ((p, { time := now, status := default })
          :: s.active_peers)).isNone
        simp only [List.lookup_cons, beq_false_of_ne hne]
        exact h q hmem
      · rename_i hq
        intro q hqm
        have hne : q ≠ p := fun e => hq (e ▸ hqm)
        show (List.lookup q ((p, { time := now, status := default })
          :: s.active_peers)).isNone
        simp only [List.lookup_cons, beq_false_of_ne hne]
        exact h q hqm
  · exact disj_disconnect p h

theorem disj_hostConnectCallback (own p : PeerId)
    (cres : Option (Option PeerId)) (a : Option (List Nat)) (hard : Nat)
    (isAlive : PeerId → Bool) {s : PeerManagerState}
    (h : activeQueueDisjoint s) :
    activeQueueDisjoint (hostConnectCallback own p cres a hard isAlive s).1 := by
  unfold hostConnectCallback
  dsimp only
  split
  · exact h
  · exact h
  · split
    · exact disj_processFullyConnectedPeer own p a hard isAlive h
    · exact h

end Lemmas

/-- C5: prepare returns failure exactly when the node is not in dev mode
and the bootstrap list is empty; the only other lifecycle operation with a
return value, start, returns true in both of its branches, so prepare is
the only operation whose failure a caller can observe. -/
theorem prepare_fails_iff (dev : Bool) (bs : List PeerId) :
    (prepare dev bs = false ↔ (dev = false ∧ bs = [])) ∧
      startReturn dev bs = true := by
  constructor
  · cases dev <;> cases bs <;> simp [prepare]
  · cases dev <;> cases bs <;> simp [startReturn]

/-- C9: connectToPeer with an empty resolved address list returns before
dialing: no dial action is produced, the whole peer book is unchanged and
in particular a peer that was in the connecting set stays there. -/
theorem connectToPeer_empty_addresses (p : PeerId) (conn : Connectedness)
    (s : PeerManagerState) :
    (connectToPeer p [] conn s).1 = s ∧
    (connectToPeer p [] conn s).2 = none ∧
    (p ∈ s.connecting_peers → p ∈ (connectToPeer p [] conn s).1.connecting_peers) := by
  refine ⟨rfl, rfl, fun h => h⟩

/-- C9 witness at a concrete state with peer 4 connecting. -/
theorem connectToPeer_empty_addresses_witness :
    (connectToPeer 4 [] Connectedness.CAN_CONNECT stateA).1 = stateA ∧
    4 ∈ (connectToPeer 4 [] Connectedness.CAN_CONNECT stateA).1.connecting_peers :=
  ⟨(connectToPeer_empty_addresses 4 Connectedness.CAN_CONNECT stateA).1,
   (connectToPeer_empty_addresses 4 Connectedness.CAN_CONNECT stateA).2.2 (by decide)⟩

/-- C10: the partial status update (best-block overload) on a peer that is
not active leaves the entire peer book unchanged. -/
theorem updatePeerStatusBest_inactive_noop (p : PeerId) (bb : BlockInfo)
    (now : Timepoint) (s : PeerManagerState)
    (h : (s.active_peers.lookup p).isNone) :
    updatePeerStatusBest p bb now s = s := by
  have hn : ¬ (s.active_peers.lookup p).isSome := by
    rw [Option.isNone_iff_eq_none] at h
    simp [h]
  simp [updatePeerStatusBest, hn]

/-- C10 witness: peer 4 is not active in stateA. -/
theorem updatePeerStatusBest_inactive_noop_witness :
    updatePeerStatusBest 4 9 5 stateA = stateA :=
  updatePeerStatusBest_inactive_noop 4 9 5 stateA (by decide)

/-- C7 counterexample: disconnectFromPeer on peer 3, which is not active
in the empty peer book, still calls remove on the sync clients set, so the
operation is not free of dependent-subsystem effects as claimed. -/
theorem disconnectFromPeer_inactive_cex :
    (emptyState.active_peers.lookup 3).isNone ∧
    (disconnectFromPeer 3 emptyState).2 = [Effect.syncClientsRemove 3] ∧
    (disconnectFromPeer 3 emptyState).2 ≠ [] := by decide

/-- C7 amended: disconnectFromPeer on a peer that is not active leaves the
peer book unchanged and does not touch the stream engine, but it still
issues a sync-clients remove call for the peer. -/
theorem disconnectFromPeer_inactive_frame (p : PeerId) (s : PeerManagerState)
    (h : (s.active_peers.lookup p).isNone) :
    (disconnectFromPeer p s).1 = s ∧
    (disconnectFromPeer p s).2 = [Effect.syncClientsRemove p] ∧
    ∀ q, Effect.streamDel q ∉ (disconnectFromPeer p s).2 := by
  have hn : ¬ (s.active_peers.lookup p).isSome := by
    rw [Option.isNone_iff_eq_none] at h
    simp [h]
  simp [disconnectFromPeer, hn]

/-- C7 witness: peer 9 is not active in stateA. -/
theorem disconnectFromPeer_inactive_frame_witness :
    (disconnectFromPeer 9 stateA).1 = stateA ∧
    (disconnectFromPeer 9 stateA).2 = [Effect.syncClientsRemove 9] :=
  ⟨(disconnectFromPeer_inactive_frame 9 stateA (by decide)).1,
   (disconnectFromPeer_inactive_frame 9 stateA (by decide)).2.1⟩

/-- C3 counterexample: peer 5 is active with last_seen 0; the stream-open
success continuation at time 7 leaves last_seen at 0 instead of updating
it to 7, because the emplace into active_peers_ does not overwrite. -/
theorem stream_callback_already_active_cex :
    (newOutgoingStreamCallback 5 true 7 stateActive5).1.active_peers
      = [(5, { time := 0, status := default })] ∧
    (newOutgoingStreamCallback 5 true 7 stateActive5).1.active_peers
      ≠ [(5, { time := 7, status := default })] := by decide

/-- C3 amended: when the peer is already active, the stream-open success
continuation erases it from the connecting set and changes nothing else;
in particular last_seen is NOT refreshed and the queue is untouched. -/
theorem stream_callback_already_active (p : PeerId) (now : Timepoint)
    (s : PeerManagerState) (h : (s.active_peers.lookup p).isSome) :
    (newOutgoingStreamCallback p true now s).1 =
      { s with connecting_peers := setErase p s.connecting_peers } ∧
    (newOutgoingStreamCallback p true now s).2 = [] := by
  simp [newOutgoingStreamCallback, h]

/-- C3 witness: peer 1 is active in stateA. -/
theorem stream_callback_already_active_witness :
    (newOutgoingStreamCallback 1 true 9 stateA).1 =
      { stateA with connecting_peers := setErase 1 stateA.connecting_peers } ∧
    (newOutgoingStreamCallback 1 true 9 stateA).2 = [] :=
  stream_callback_already_active 1 9 stateA (by decide)

/-- C6: an identify-received event for a non-self peer with known
addresses arriving while the active count is at or above the hard limit
erases the peer from the connecting set, requests no stream and leaves the
active set and the queue unchanged. -/
theorem processFullyConnectedPeer_at_hard_limit (own p : PeerId)
    (addrs : List Nat) (hard : Nat) (isAlive : PeerId → Bool)
    (s : PeerManagerState) (hself : own ≠ p)
    (hhard : hard ≤ s.active_peers.length) :
    (processFullyConnectedPeer own p (some addrs) hard isAlive s).1.active_peers
      = s.active_peers ∧
    p ∉ (processFullyConnectedPeer own p (some addrs) hard isAlive s).1.connecting_peers ∧
    (processFullyConnectedPeer own p (some addrs) hard isAlive s).1.queue_to_connect
      = s.queue_to_connect ∧
    (processFullyConnectedPeer own p (some addrs) hard isAlive s).1.peers_in_queue
      = s.peers_in_queue ∧
    ∀ q, Effect.streamOpenRequest q ∉
      (processFullyConnectedPeer own p (some addrs) hard isAlive s).2 := by
  simp only [processFullyConnectedPeer, if_neg hself, if_pos hhard]
  simp [not_mem_setErase_self]

/-- C6 witness: stateA has one active peer, hard limit 1, peer 4 arriving. -/
theorem processFullyConnectedPeer_at_hard_limit_witness :
    (processFullyConnectedPeer 0 4 (some [11]) 1 (fun _ => false) stateA).1.active_peers
      = stateA.active_peers ∧
    4 ∉ (processFullyConnectedPeer 0 4 (some [11]) 1 (fun _ => false) stateA).1.connecting_peers :=
  ⟨(processFullyConnectedPeer_at_hard_limit 0 4 [11] 1 (fun _ => false) stateA
      (by decide) (by decide)).1,
   (processFullyConnectedPeer_at_hard_limit 0 4 [11] 1 (fun _ => false) stateA
      (by decide) (by decide)).2.1⟩

/-- C4: the full status update overwrites status and last_seen of an
active peer and changes nothing else; for a peer that is not active it
erases the peer from the connecting set and from the queue and its mirror
(when present), and inserts it into active with the provided status and
last_seen equal to the current time, leaving other active entries alone. -/
theorem updatePeerStatus_spec (p : PeerId) (st : Status) (now : Timepoint)
    (s : PeerManagerState) (hm : queueMirror s) :
    ((s.active_peers.lookup p).isSome →
      (updatePeerStatus p st now s).connecting_peers = s.connecting_peers ∧
      (updatePeerStatus p st now s).queue_to_connect = s.queue_to_connect ∧
      (updatePeerStatus p st now s).peers_in_queue = s.peers_in_queue ∧
      (updatePeerStatus p st now s).active_peers.lookup p
        = some { time := now, status := st } ∧
      ∀ q, q ≠ p → (updatePeerStatus p st now s).active_peers.lookup q
        = s.active_peers.lookup q) ∧
    ((s.active_peers.lookup p).isNone →
      p ∉ (updatePeerStatus p st now s).connecting_peers ∧
      p ∉ (updatePeerStatus p st now s).peers_in_queue ∧
      p ∉ (updatePeerStatus p st now s).queue_to_connect ∧
      (updatePeerStatus p st now s).active_peers.lookup p
        = some { time := now, status := st } ∧
      ∀ q, q ≠ p → (updatePeerStatus p st now s).active_peers.lookup q
        = s.active_peers.lookup q) := by
  obtain ⟨hqd, hpd, hqf⟩ := hm
  constructor
  · intro h
    refine ⟨?_, ?_, ?_, ?_, ?_⟩
    · simp [updatePeerStatus, h]
    · simp [updatePeerStatus, h]
    · simp [updatePeerStatus, h]
    · simp only [updatePeerStatus, if_pos h]
      rw [lookup_updateActive_self]
      obtain ⟨d, hd⟩ := Option.isSome_iff_exists.mp h
      rw [hd]
      rfl
    · intro q hq
      simp only [updatePeerStatus, if_pos h]
      exact lookup_updateActive_ne _ hq
  · intro h
    have hn : ¬ (s.active_peers.lookup p).isSome := by
      rw [Option.isNone_iff_eq_none] at h
      simp [h]
    have hnone : s.active_peers.lookup p = none := Option.isNone_iff_eq_none.mp h
    have hemp : emplaceActive s.active_peers p { time := now, status := st }
        = (p, { time := now, status := st }) :: s.active_peers := by
      simp [emplaceActive, hn]
    by_cases hq : p ∈ s.peers_in_queue
    · simp only [updatePeerStatus, if_neg hn, if_pos hq, hemp]
      refine ⟨not_mem_setErase_self, not_mem_setErase_self, hqd.not_mem_erase, ?_, ?_⟩
      · simp [List.lookup_cons]
      · intro q hqp
        simp [List.lookup_cons, beq_false_of_ne hqp]
    · simp only [updatePeerStatus, if_neg hn, if_neg hq, hemp]
      have hqueue : p ∉ s.queue_to_connect := by
        intro hc
        exact hq (List.mem_toFinset.mp (hqf ▸ List.mem_toFinset.mpr hc))
      refine ⟨not_mem_setErase_self, hq, hqueue, ?_, ?_⟩
      · simp [List.lookup_cons]
      · intro q hqp
        simp [List.lookup_cons, beq_false_of_ne hqp]

/-- C4 witness: the active branch at peer 1 of stateA and the
not-active branch at the queued peer 6 of stateA. -/
theorem updatePeerStatus_spec_witness :
    (updatePeerStatus 1 { best_block := 9, rest := 0 } 5 stateA).active_peers.lookup 1
      = some { time := 5, status := { best_block := 9, rest := 0 } } ∧
    6 ∉ (updatePeerStatus 6 { best_block := 9, rest := 0 } 5 stateA).peers_in_queue ∧
    6 ∉ (updatePeerStatus 6 { best_block := 9, rest := 0 } 5 stateA).queue_to_connect :=
  ⟨((updatePeerStatus_spec 1 { best_block := 9, rest := 0 } 5 stateA (by decide)).1
      (by decide)).2.2.2.1,
   ((updatePeerStatus_spec 6 { best_block := 9, rest := 0 } 5 stateA (by decide)).2
      (by decide)).2.1,
   ((updatePeerStatus_spec 6 { best_block := 9, rest := 0 } 5 stateA (by decide)).2
      (by decide)).2.2.1⟩

/-- C1 counterexample: with every limit 0 and two live, fresh active
peers, one align pass evicts a single peer and completes with one active
peer, which still exceeds the hard limit of 0. -/
theorem align_hard_limit_cex :
    cfgZero.hardLimit = 0 ∧
    stateTwoActive.active_peers.length = 2 ∧
    (align cfgZero (fun _ => true) 0 [] 0 stateTwoActive).active_peers.length = 1 ∧
    ¬ ((align cfgZero (fun _ => true) 0 [] 0 stateTwoActive).active_peers.length
        ≤ cfgZero.hardLimit) := by decide

/-- C1 amended: one align pass evicts at most one peer beyond the
liveness sweep, so the active count is at most hard_limit afterwards
provided soft_limit is at most hard_limit and at most hard_limit + 1
active peers survive the sweep; a pass that starts more than one peer
above the hard limit ends still above it. -/
theorem align_active_le_hard_limit (cfg : PeeringConfig)
    (isAlive : PeerId → Bool) (now : Timepoint) (bootstrap : List PeerId)
    (own : PeerId) (s : PeerManagerState)
    (hsh : cfg.softLimit ≤ cfg.hardLimit)
    (hn : (s.active_peers.filter (fun e => isAlive e.1)).length
        ≤ cfg.hardLimit + 1) :
    (align cfg isAlive now bootstrap own s).active_peers.length
      ≤ cfg.hardLimit := by
  unfold align
  rw [alignFill_active]
  exact alignEvict_length_le cfg now _ hsh (by simpa [alignSweep] using hn)

/-- C1 witness: one live active peer against hard limit 0. -/
theorem align_active_le_hard_limit_witness :
    (align cfgZero (fun _ => true) 0 [] 0 stateActive5).active_peers.length
      ≤ cfgZero.hardLimit :=
  align_active_le_hard_limit cfgZero (fun _ => true) 0 [] 0 stateActive5
    (by decide) (by decide)

/-- C2 counterexample: peer 4 is in the connecting set of stateA and in
no other index; processDiscoveredPeer still appends it to the queue and
its mirror set, so afterwards peer 4 occupies two of the three indices. -/
theorem processDiscoveredPeer_connecting_enqueued_cex :
    4 ∈ stateA.connecting_peers ∧
    (stateA.active_peers.lookup 4).isNone ∧
    4 ∉ stateA.peers_in_queue ∧
    4 ∈ (processDiscoveredPeer 0 4 stateA).connecting_peers ∧
    4 ∈ (processDiscoveredPeer 0 4 stateA).peers_in_queue ∧
    4 ∈ (processDiscoveredPeer 0 4 stateA).queue_to_connect := by decide

/-- C2 amended: the public operations preserve disjointness of the active
map and the queue mirror set only; the connecting set is not consulted by
processDiscoveredPeer, so a connecting peer can also be queued. -/
theorem activeQueueDisjoint_preserved (s : PeerManagerState)
    (h : activeQueueDisjoint s) :
    (∀ own p, activeQueueDisjoint (processDiscoveredPeer own p s)) ∧
    (∀ cfg isAlive now bootstrap own,
      activeQueueDisjoint (align cfg isAlive now bootstrap own s)) ∧
    (∀ p st now, activeQueueDisjoint (updatePeerStatus p st now s)) ∧
    (∀ p bb now, activeQueueDisjoint (updatePeerStatusBest p bb now s)) ∧
    (∀ p now, activeQueueDisjoint (keepAlive p now s)) ∧
    (∀ p, activeQueueDisjoint (disconnectFromPeer p s).1) ∧
    (∀ p addrs conn, activeQueueDisjoint (connectToPeer p addrs conn s).1) ∧
    (∀ own p a hard alive,
      activeQueueDisjoint (processFullyConnectedPeer own p a hard alive s).1) ∧
    (∀ p success now,
      activeQueueDisjoint (newOutgoingStreamCallback p success now s).1) ∧
    (∀ own p cres a hard alive,
      activeQueueDisjoint (hostConnectCallback own p cres a hard alive s).1) := by
  refine ⟨fun own p => disj_processDiscoveredPeer own p h,
    fun cfg isAlive now bootstrap own => disj_align cfg isAlive now bootstrap own h,
    fun p st now => disj_updatePeerStatus p st now h,
    fun p bb now => disj_updatePeerStatusBest p bb now h,
    fun p now => disj_keepAlive p now h,
    fun p => disj_disconnect p h,
    fun p addrs conn => disj_connectToPeer p addrs conn h,
    fun own p a hard alive => disj_processFullyConnectedPeer own p a hard alive h,
    fun p success now => disj_newOutgoingStreamCallback p success now h,
    fun own p cres a hard alive =>
      disj_hostConnectCallback own p cres a hard alive h⟩

/-- C2 witness: the preserved disjointness instantiated on stateA for a
discovery event. -/
theorem activeQueueDisjoint_preserved_witness :
    activeQueueDisjoint (processDiscoveredPeer 0 7 stateA) :=
  (activeQueueDisjoint_preserved stateA (by decide)).1 0 7

/-- C8: assuming the queue and its mirror set agree (duplicate-free, same
ids, hence equal sizes), they still agree, with equal sizes, after every
public operation: discovery intake, one align pass, the two status
updates, keepalive, disconnect, dialing, identify intake and both
asynchronous continuations. -/
theorem queueMirror_preserved (s : PeerManagerState) (h : queueMirror s) :
    s.queue_to_connect.length = s.peers_in_queue.length ∧
    (∀ own p, queueMirror (processDiscoveredPeer own p s) ∧
      (processDiscoveredPeer own p s).queue_to_connect.length
        = (processDiscoveredPeer own p s).peers_in_queue.length) ∧
    (∀ cfg isAlive now bootstrap own,
      queueMirror (align cfg isAlive now bootstrap own s) ∧
      (align cfg isAlive now bootstrap own s).queue_to_connect.length
        = (align cfg isAlive now bootstrap own s).peers_in_queue.length) ∧
    (∀ p st now, queueMirror (updatePeerStatus p st now s) ∧
      (updatePeerStatus p st now s).queue_to_connect.length
        = (updatePeerStatus p st now s).peers_in_queue.length) ∧
    (∀ p bb now, queueMirror (updatePeerStatusBest p bb now s)) ∧
    (∀ p now, queueMirror (keepAlive p now s)) ∧
    (∀ p, queueMirror (disconnectFromPeer p s).1) ∧
    (∀ p addrs conn, queueMirror (connectToPeer p addrs conn s).1) ∧
    (∀ own p a hard alive,
      queueMirror (processFullyConnectedPeer own p a hard alive s).1) ∧
    (∀ p success now, queueMirror (newOutgoingStreamCallback p success now s).1 ∧
      (newOutgoingStreamCallback p success now s).1.queue_to_connect.length
        = (newOutgoingStreamCallback p success now s).1.peers_in_queue.length) ∧
    (∀ own p cres a hard alive,
      queueMirror (hostConnectCallback own p cres a hard alive s).1) := by
  refine ⟨queueMirror_length h,
    fun own p => ?_, fun cfg isAlive now bootstrap own => ?_,
    fun p st now => ?_,
    fun p bb now => mirror_updatePeerStatusBest p bb now h,
    fun p now => mirror_keepAlive p now h,
    fun p => mirror_disconnect p h,
    fun p addrs conn => mirror_connectToPeer p addrs conn h,
    fun own p a hard alive =>
      mirror_processFullyConnectedPeer own p a hard alive h,
    fun p success now => ?_,
    fun own p cres a hard alive =>
      mirror_hostConnectCallback own p cres a hard alive h⟩
  · have m := mirror_processDiscoveredPeer own p h
    exact ⟨m, queueMirror_length m⟩
  · have m := mirror_align cfg isAlive now bootstrap own h
    exact ⟨m, queueMirror_length m⟩
  · have m := mirror_updatePeerStatus p st now h
    exact ⟨m, queueMirror_length m⟩
  · have m := mirror_newOutgoingStreamCallback p success now h
    exact ⟨m, queueMirror_length m⟩

/-- C8 witness: the mirror invariant on stateA survives a discovery event
for the new peer 7, with equal sizes. -/
theorem queueMirror_preserved_witness :
    queueMirror (processDiscoveredPeer 0 7 stateA) ∧
    (processDiscoveredPeer 0 7 stateA).queue_to_connect.length
      = (processDiscoveredPeer 0 7 stateA).peers_in_queue.length :=
  (queueMirror_preserved stateA (by decide)).2.1 0 7

end KagomeNetwork
